import Mathlib

set_option maxHeartbeats 1000000

/-!
Shallow embedding of the image2unicodeart repository (src/lib.rs, src/main.rs).

Modelling conventions:
* Rust `f32` arithmetic is modelled by exact rationals (`ℚ`); every concrete
  value appearing in the claims is exactly representable in `f32`, and every
  `f32` operation involved (multiply, subtract, round, clamp) is monotone, so
  the rational model is faithful on the claimed properties.
* Rust panics (`assert!`, `f32::clamp` with `min > max`, `Option::unwrap` on
  `None`) are modelled as `Option.none`.
* The `image` crate (decode, grayscale, resize_exact) and the file system /
  HTTP collaborators are external to the core per the spec; where a claim needs
  them they appear as explicit parameters.
-/

/-- The newline character written by `writeln!` in the `Display` impl. -/
def newlineChar : Char := Char.ofNat 10

/-- One RGBA pixel as returned by `image::GenericImageView::get_pixel`:
four `u8` channels, `c0` the red/luma channel, `c3` the alpha channel. -/
structure Pixel where
  c0 : ℕ
  c1 : ℕ
  c2 : ℕ
  c3 : ℕ
deriving DecidableEq

/-- A decoded image (`image::DynamicImage` viewed through `GenericImageView`):
integer dimensions plus per-coordinate pixel access. -/
structure DecodedImage where
  width : ℕ
  height : ℕ
  pixel : ℕ → ℕ → Pixel

/-- `struct AsciiImage { dimensions: (u32, u32), data: Vec<Vec<char>> }`
from src/lib.rs. `dimensions.1` is the width, `dimensions.2` the height. -/
structure AsciiImage where
  dimensions : ℕ × ℕ
  data : List (List Char)
deriving DecidableEq

/-- Rust `f32::round`: round to nearest, ties away from zero. -/
def rustRound (q : ℚ) : ℤ := if 0 ≤ q then ⌊q + 1/2⌋ else -⌊-q + 1/2⌋

/-- `fn brightness_to_index(brightness: f32, num_chars: usize) -> usize`
(src/lib.rs lines 106-110):
`(brightness * num_chars as f32 - 0.5).round().clamp(0.0, num_chars as f32 - 1.0) as usize`.
`f32::clamp` panics when its lower bound exceeds its upper bound, i.e. when
`0.0 > num_chars - 1.0`; the panic is modelled as `none`.  The rounded value is
integral, so rounding, clamping to the integral bounds and casting with
`as usize` are carried out on `ℤ`. -/
def brightness_to_index (brightness : ℚ) (num_chars : ℕ) : Option ℕ :=
  if (0 : ℚ) ≤ (num_chars : ℚ) - 1 then
    some ((min (max (rustRound (brightness * num_chars - 1/2)) 0) ((num_chars : ℤ) - 1)).toNat)
  else none

/-- The pixel sampler inside `AsciiImage::copy_from`:
`(pixel[0] as f32 / u8::MAX as f32) * (pixel[3] as f32 / u8::MAX as f32)`. -/
def pixelBrightness (p : Pixel) : ℚ := ((p.c0 : ℚ) / 255) * ((p.c3 : ℚ) / 255)

/-- `AsciiImage::create_empty` (src/lib.rs lines 46-52):
`vec![vec!['.'; dimensions.0 as usize]; dimensions.1 as usize]`. -/
def create_empty (dims : ℕ × ℕ) : AsciiImage :=
  ⟨dims, List.replicate dims.2 (List.replicate dims.1 '.')⟩

/-- One iteration of the inner loop body of `AsciiImage::copy_from`
(src/lib.rs lines 63-72): sample the pixel at `(x, y)`, quantize, look the
symbol up in the charset (`unwrap`, modelled as `Option` bind) and store it at
`data[y][x]`. -/
def copyCell (img : DecodedImage) (charset : List Char) (y : ℕ)
    (acc : AsciiImage) (x : ℕ) : Option AsciiImage := do
  let p := img.pixel x y
  let brightness := pixelBrightness p
  let num_chars := charset.length
  let idx ← brightness_to_index brightness num_chars
  let symbol ← charset.get? idx
  pure ⟨acc.dimensions, acc.data.set y ((acc.data.getD y []).set x symbol)⟩

/-- `AsciiImage::copy_from` (src/lib.rs lines 60-75): the initial
`assert!(img.dimensions() == self.dimensions)` is modelled as the guard (a
failed assert panics, i.e. `none`); then the nested `for y { for x { ... } }`
loop is the nested monadic fold. -/
def copy_from (self : AsciiImage) (img : DecodedImage) (charset : List Char) :
    Option AsciiImage :=
  if (img.width, img.height) = self.dimensions then
    (List.range self.dimensions.2).foldlM
      (fun acc y => (List.range self.dimensions.1).foldlM (copyCell img charset y) acc) self
  else none

/-- `AsciiImage::create_from` (src/lib.rs lines 54-58). -/
def create_from (img : DecodedImage) (charset : List Char) : Option AsciiImage :=
  copy_from (create_empty (img.width, img.height)) img charset

/-- `impl fmt::Display for AsciiImage` (src/lib.rs lines 34-44): for each row
write every character, then `writeln!` a newline. -/
def AsciiImage.render (img : AsciiImage) : String :=
  img.data.foldl (fun acc row => (row.foldl (fun a c => a.push c) acc).push newlineChar) ""

/-- Truncation toward zero, the semantics of Rust `as u32` on a nonnegative
float (negative values saturate to 0, handled by `Int.toNat` at use sites). -/
def truncTowardZero (q : ℚ) : ℤ := if 0 ≤ q then ⌊q⌋ else ⌈q⌉

/-- The Geometry Planner inside `generate_image` (src/lib.rs lines 85-89):
`aspect_ratio = orig_w as f32 / orig_h as f32`;
`(w as f32 * r / aspect_ratio) as u32`. -/
def ascii_art_height (orig_w orig_h w : ℕ) (r : ℚ) : ℕ :=
  (truncTowardZero ((w : ℚ) * r / ((orig_w : ℚ) / (orig_h : ℚ)))).toNat

/-- The core of `generate_image` (src/lib.rs lines 78-104), from the decoded
image to the rendered string.  `grayscaleResize` stands for the external
`img.grayscale().resize_exact(w, h, CatmullRom)` collaborator from the `image`
crate (out of core scope per the spec); loading and writing are the other
external collaborators and sit outside this function. -/
def generate_image (grayscaleResize : DecodedImage → ℕ → ℕ → DecodedImage)
    (img : DecodedImage) (output_width : Option ℕ) (symbol_aspect_ratio : ℚ)
    (charset : List Char) : Option String :=
  let w := output_width.getD img.width
  let h := ascii_art_height img.width img.height w symbol_aspect_ratio
  let img2 := grayscaleResize img w h
  (create_from img2 charset).map AsciiImage.render

/-- `pub enum ProgramError` (src/lib.rs lines 6-12). -/
inductive ProgramError where
  | InvalidInputPath
  | FailedToDecodeInput
  | FailedToWriteToOutput
  | FailedToDownload
  | DownloadInvalid
deriving DecidableEq

/-- The error branch of `main` (src/main.rs lines 38-57): the single line
printed for each error kind.  `args.output.unwrap()` in the
`FailedToWriteToOutput` arm panics when no output path was given, modelled by
`Option.map`. -/
def error_message (err : ProgramError) (input : String) (output : Option String) :
    Option String :=
  match err with
  | .InvalidInputPath => some ("Failed to open: " ++ input)
  | .FailedToDecodeInput => some "Failed to decode input image!"
  | .FailedToWriteToOutput => output.map (fun o => "Failed to save output to: " ++ o)
  | .FailedToDownload => some ("Failed to download: " ++ input)
  | .DownloadInvalid => some ("Invalid source: " ++ input)

/-- The Brightness Quantizer exactly as worded in the spec (§4.3): compute
`round(brightness * num_chars - 0.5)` with ties away from zero, then clamp the
result to `[0, num_chars - 1]`.  Stated as a total function on `ℤ` for
comparison with the implementation `brightness_to_index`. -/
def quantizer_spec (b : ℚ) (n : ℕ) : ℤ :=
  max 0 (min (rustRound (b * n - 1/2)) ((n : ℤ) - 1))

/-- The Geometry Planner exactly as worded in the spec (§4.1):
`aspect_ratio = orig_w / orig_h`, `height = round_to_int(w * r / aspect_ratio)`
using truncation toward zero. -/
def geometry_height_spec (orig_w orig_h w : ℕ) (r : ℚ) : ℤ :=
  truncTowardZero ((w : ℚ) * r / ((orig_w : ℚ) / (orig_h : ℚ)))

/-- Serialization exactly as worded in the spec (§4.4): `height` lines, each
line being that row's characters concatenated with no separator and terminated
by a newline, nothing else. -/
def serialize_spec (img : AsciiImage) : String :=
  String.join (img.data.map (fun row => String.mk row ++ String.singleton newlineChar))

/-- A fully opaque white RGBA pixel. -/
def whitePixel : Pixel := ⟨255, 255, 255, 255⟩

/-- A 2×2 solid white opaque source image (the end-to-end scenario input). -/
def whiteImage2x2 : DecodedImage := ⟨2, 2, fun _ _ => whitePixel⟩

/-- A concrete instance of the external grayscale+resize collaborator used on
constant-colour images: it keeps the pixel function and re-declares the
dimensions.  Any resampling filter (including `CatmullRom`) maps a constant
image to the constant image of the target size, which is exactly what this
function does on a constant pixel function. -/
def sampleResize : DecodedImage → ℕ → ℕ → DecodedImage :=
  fun img w h => ⟨w, h, img.pixel⟩

/-- The two-glyph charset `" #"` of the end-to-end scenario. -/
def charsetHash : List Char := [Char.ofNat 32, '#']

/-- The concrete grid produced by rendering `whiteImage2x2` with charset
`"#"` at its native size. -/
def gridHash2x2 : AsciiImage := ⟨(2, 2), [['#', '#'], ['#', '#']]⟩

/-- A 1×1 solid white opaque source image. -/
def whiteImage1x1 : DecodedImage := ⟨1, 1, fun _ _ => whitePixel⟩

/-! ## Helper lemmas -/

lemma bti_eq_of_one_le (b : ℚ) (n : ℕ) (hn : 1 ≤ n) :
    brightness_to_index b n =
      some ((min (max (rustRound (b * n - 1/2)) 0) ((n : ℤ) - 1)).toNat) := by
  unfold brightness_to_index
  rw [if_pos]
  have h : (1 : ℚ) ≤ (n : ℚ) := by exact_mod_cast hn
  linarith

lemma bti_zero_none (b : ℚ) : brightness_to_index b 0 = none := by
  unfold brightness_to_index
  rw [if_neg]
  norm_num

lemma bti_lt (b : ℚ) (n : ℕ) (hn : 1 ≤ n) (i : ℕ)
    (h : brightness_to_index b n = some i) : i < n := by
  rw [bti_eq_of_one_le b n hn] at h
  have hi := (Option.some.injEq _ _).mp h
  have hle : min (max (rustRound (b * n - 1/2)) 0) ((n : ℤ) - 1) ≤ (n : ℤ) - 1 :=
    min_le_right _ _
  have h1 : (1 : ℤ) ≤ (n : ℤ) := by exact_mod_cast hn
  omega

lemma rustRound_mono {q1 q2 : ℚ} (h : q1 ≤ q2) : rustRound q1 ≤ rustRound q2 := by
  unfold rustRound
  by_cases h1 : 0 ≤ q1
  · rw [if_pos h1, if_pos (le_trans h1 h)]
    exact Int.floor_mono (by linarith)
  · rw [if_neg h1]
    by_cases h2 : 0 ≤ q2
    · rw [if_pos h2]
      have ha : (0 : ℤ) ≤ ⌊q2 + 1/2⌋ := by
        rw [Int.le_floor]
        push_cast
        linarith
      have hb : (0 : ℤ) ≤ ⌊-q1 + 1/2⌋ := by
        rw [Int.le_floor]
        push_cast
        linarith
      omega
    · rw [if_neg h2]
      have hm : ⌊-q2 + 1/2⌋ ≤ ⌊-q1 + 1/2⌋ := Int.floor_mono (by linarith)
      omega

lemma foldlM_option_pres {α β : Type} (f : β → α → Option β) (P : β → Prop) :
    ∀ (l : List α), (∀ b a b2, a ∈ l → f b a = some b2 → P b → P b2) →
      ∀ b b2, P b → l.foldlM f b = some b2 → P b2 := by
  intro l
  induction l with
  | nil =>
    intro _ b b2 hP h
    simp only [List.foldlM_nil, Option.pure_def, Option.some.injEq] at h
    exact h ▸ hP
  | cons a l ih =>
    intro hf b b2 hP h
    rw [List.foldlM_cons] at h
    cases hfa : f b a with
    | none => rw [hfa] at h; simp at h
    | some b1 =>
      rw [hfa] at h
      simp only [Option.pure_def, Option.bind_eq_bind, Option.some_bind] at h
      exact ih (fun c a2 c2 ha => hf c a2 c2 (List.mem_cons_of_mem _ ha)) b1 b2
        (hf b a b1 (List.mem_cons_self _ _) hfa hP) h

lemma foldlM_option_total {α β : Type} (f : β → α → Option β) (P : β → Prop) :
    ∀ (l : List α), (∀ b a, a ∈ l → P b → ∃ b2, f b a = some b2 ∧ P b2) →
      ∀ b, P b → ∃ b2, l.foldlM f b = some b2 ∧ P b2 := by
  intro l
  induction l with
  | nil =>
    intro _ b hP
    exact ⟨b, by simp [List.foldlM_nil], hP⟩
  | cons a l ih =>
    intro hf b hP
    obtain ⟨b1, hb1, hP1⟩ := hf b a (List.mem_cons_self _ _) hP
    obtain ⟨b2, hb2, hP2⟩ :=
      ih (fun c a2 ha => hf c a2 (List.mem_cons_of_mem _ ha)) b1 hP1
    refine ⟨b2, ?_, hP2⟩
    rw [List.foldlM_cons, hb1]
    simpa using hb2

lemma copyCell_eq_some (img : DecodedImage) (charset : List Char) (y : ℕ)
    (acc : AsciiImage) (x : ℕ) (acc2 : AsciiImage)
    (h : copyCell img charset y acc x = some acc2) :
    ∃ symbol, acc2 = ⟨acc.dimensions, acc.data.set y ((acc.data.getD y []).set x symbol)⟩ := by
  simp only [copyCell] at h
  cases hb : brightness_to_index (pixelBrightness (img.pixel x y)) charset.length with
  | none => rw [hb] at h; simp at h
  | some idx =>
    rw [hb] at h
    simp only [Option.pure_def, Option.bind_eq_bind, Option.some_bind] at h
    cases hs : charset.get? idx with
    | none => rw [hs] at h; simp at h
    | some symbol =>
      rw [hs] at h
      simp only [Option.pure_def, Option.bind_eq_bind, Option.some_bind,
        Option.some.injEq] at h
      exact ⟨symbol, h.symm⟩

lemma copyCell_total (img : DecodedImage) (charset : List Char) (y : ℕ)
    (acc : AsciiImage) (x : ℕ) (hcs : charset ≠ []) :
    ∃ acc2, copyCell img charset y acc x = some acc2 := by
  have hn : 1 ≤ charset.length := List.length_pos.mpr hcs
  obtain ⟨i, hi⟩ :
      ∃ i, brightness_to_index (pixelBrightness (img.pixel x y)) charset.length = some i :=
    ⟨_, bti_eq_of_one_le _ _ hn⟩
  have hlt : i < charset.length := bti_lt _ _ hn i hi
  refine ⟨⟨acc.dimensions, acc.data.set y ((acc.data.getD y []).set x (charset.get ⟨i, hlt⟩))⟩, ?_⟩
  simp only [copyCell]
  rw [hi]
  simp only [Option.pure_def, Option.bind_eq_bind, Option.some_bind]
  rw [List.get?_eq_get hlt]
  rfl

lemma copyCell_shape (img : DecodedImage) (charset : List Char) (y : ℕ)
    (acc acc2 : AsciiImage) (x : ℕ) (W : ℕ)
    (hy : y < acc.data.length)
    (hrow : ∀ row ∈ acc.data, row.length = W)
    (h : copyCell img charset y acc x = some acc2) :
    acc2.dimensions = acc.dimensions ∧ acc2.data.length = acc.data.length ∧
      ∀ row ∈ acc2.data, row.length = W := by
  obtain ⟨symbol, rfl⟩ := copyCell_eq_some img charset y acc x acc2 h
  refine ⟨rfl, List.length_set _ _ _, ?_⟩
  intro row hmem
  rcases List.mem_or_eq_of_mem_set hmem with hin | hnew
  · exact hrow row hin
  · subst hnew
    rw [List.length_set, List.getD_eq_getElem _ _ hy]
    exact hrow _ (List.getElem_mem hy)

lemma copy_from_total (self : AsciiImage) (img : DecodedImage) (charset : List Char)
    (hdim : (img.width, img.height) = self.dimensions) (hcs : charset ≠ []) :
    ∃ g, copy_from self img charset = some g := by
  unfold copy_from
  rw [if_pos hdim]
  have hinner : ∀ (y : ℕ) (acc : AsciiImage),
      ∃ g, (List.range self.dimensions.1).foldlM (copyCell img charset y) acc = some g := by
    intro y acc
    obtain ⟨g, hg, -⟩ :=
      foldlM_option_total (copyCell img charset y) (fun _ => True)
        (List.range self.dimensions.1)
        (fun acc2 x _ _ => by
          obtain ⟨a2, ha2⟩ := copyCell_total img charset y acc2 x hcs
          exact ⟨a2, ha2, trivial⟩) acc trivial
    exact ⟨g, hg⟩
  obtain ⟨g, hg, -⟩ :=
    foldlM_option_total _ (fun _ => True) (List.range self.dimensions.2)
      (fun acc y _ _ => by
        obtain ⟨g2, hg2⟩ := hinner y acc
        exact ⟨g2, hg2, trivial⟩) self trivial
  exact ⟨g, hg⟩

lemma create_empty_shape (d : ℕ × ℕ) :
    (create_empty d).dimensions = d ∧ (create_empty d).data.length = d.2 ∧
      ∀ row ∈ (create_empty d).data, row.length = d.1 := by
  refine ⟨rfl, List.length_replicate _ _, ?_⟩
  intro row hmem
  rw [List.eq_of_mem_replicate hmem]
  exact List.length_replicate _ _

lemma copy_from_shape (self g : AsciiImage) (img : DecodedImage) (charset : List Char)
    (hlen : self.data.length = self.dimensions.2)
    (hrow : ∀ row ∈ self.data, row.length = self.dimensions.1)
    (h : copy_from self img charset = some g) :
    g.dimensions = self.dimensions ∧ g.data.length = self.dimensions.2 ∧
      ∀ row ∈ g.data, row.length = self.dimensions.1 := by
  unfold copy_from at h
  split at h
  · refine foldlM_option_pres _
      (fun acc => acc.dimensions = self.dimensions ∧
        acc.data.length = self.dimensions.2 ∧
        ∀ row ∈ acc.data, row.length = self.dimensions.1) _ ?_ self g ⟨rfl, hlen, hrow⟩ h
    intro acc y g2 hy hstep hP
    have hylt : y < self.dimensions.2 := List.mem_range.mp hy
    refine foldlM_option_pres (copyCell img charset y)
      (fun acc => acc.dimensions = self.dimensions ∧
        acc.data.length = self.dimensions.2 ∧
        ∀ row ∈ acc.data, row.length = self.dimensions.1) _ ?_ acc g2 hP hstep
    intro acc2 x g3 _ hstep2 hP2
    have hy2 : y < acc2.data.length := by rw [hP2.2.1]; exact hylt
    obtain ⟨hd, hl, hr⟩ := copyCell_shape img charset y acc2 g3 x _ hy2 hP2.2.2 hstep2
    exact ⟨hd.trans hP2.1, hl.trans hP2.2.1, hr⟩
  · simp at h

lemma create_from_shape (img : DecodedImage) (charset : List Char) (g : AsciiImage)
    (h : create_from img charset = some g) :
    g.dimensions = (img.width, img.height) ∧ g.data.length = img.height ∧
      ∀ row ∈ g.data, row.length = img.width := by
  unfold create_from at h
  obtain ⟨he1, he2, he3⟩ := create_empty_shape (img.width, img.height)
  exact copy_from_shape (create_empty (img.width, img.height)) g img charset he2 he3 h

lemma string_data_push (s : String) (c : Char) : (s.push c).data = s.data ++ [c] := rfl

lemma string_data_append (s t : String) : (s ++ t).data = s.data ++ t.data := rfl

lemma foldl_push_data (row : List Char) : ∀ (s : String),
    (row.foldl (fun a c => a.push c) s).data = s.data ++ row := by
  induction row with
  | nil => intro s; simp
  | cons c row ih =>
    intro s
    rw [List.foldl_cons, ih (s.push c), string_data_push]
    simp

lemma render_data (img : AsciiImage) :
    img.render.data = (img.data.map (fun row => row ++ [newlineChar])).flatten := by
  suffices h : ∀ (rows : List (List Char)) (s : String),
      (rows.foldl (fun acc row => (row.foldl (fun a c => a.push c) acc).push newlineChar) s).data
        = s.data ++ (rows.map (fun row => row ++ [newlineChar])).flatten by
    simpa [AsciiImage.render] using h img.data ""
  intro rows
  induction rows with
  | nil => intro s; simp
  | cons row rows ih =>
    intro s
    rw [List.foldl_cons, ih, string_data_push, foldl_push_data]
    simp

lemma string_join_data (l : List String) :
    (String.join l).data = (l.map String.data).flatten := by
  suffices h : ∀ (l : List String) (s : String),
      (l.foldl (fun a b => a ++ b) s).data = s.data ++ (l.map String.data).flatten by
    simpa [String.join] using h l ""
  intro l
  induction l with
  | nil => intro s; simp
  | cons t l ih =>
    intro s
    rw [List.foldl_cons, ih, string_data_append]
    simp

lemma serialize_spec_data (img : AsciiImage) :
    (serialize_spec img).data = (img.data.map (fun row => row ++ [newlineChar])).flatten := by
  unfold serialize_spec
  rw [string_join_data, List.map_map]
  rfl

lemma count_join_rows (rows : List (List Char)) (h : ∀ row ∈ rows, newlineChar ∉ row) :
    ((rows.map (fun row => row ++ [newlineChar])).flatten).count newlineChar = rows.length := by
  induction rows with
  | nil => simp
  | cons row rows ih =>
    simp only [List.map_cons, List.flatten_cons, List.count_append]
    have h1 : row.count newlineChar = 0 :=
      List.count_eq_zero.mpr (h row (List.mem_cons_self _ _))
    rw [h1, ih (fun r hr => h r (List.mem_cons_of_mem _ hr))]
    simp [List.length_cons]
    omega

lemma copy_from_empty_charset (self : AsciiImage) (img : DecodedImage)
    (hdim : (img.width, img.height) = self.dimensions)
    (hw : 1 ≤ self.dimensions.1) (hh : 1 ≤ self.dimensions.2) :
    copy_from self img ([] : List Char) = none := by
  unfold copy_from
  rw [if_pos hdim]
  obtain ⟨k, hk⟩ : ∃ k, self.dimensions.2 = k + 1 := ⟨self.dimensions.2 - 1, by omega⟩
  obtain ⟨j, hj⟩ : ∃ j, self.dimensions.1 = j + 1 := ⟨self.dimensions.1 - 1, by omega⟩
  rw [hk, hj, List.range_succ_eq_map, List.range_succ_eq_map]
  have hcell : ∀ acc x, copyCell img ([] : List Char) 0 acc x = none := by
    intro acc x
    simp [copyCell, bti_zero_none]
  simp [List.foldlM_cons, hcell]

/-! ## Claim theorems -/

/-- C1: for every brightness value (including values outside `[0,1]`) and every
`num_chars ≥ 1`, `brightness_to_index` returns (without panicking) an index in
`[0, num_chars - 1]`; consequently the charset lookup at that index in
`copy_from` always succeeds — `copy_from` returns `some` — whenever the
charset is non-empty. -/
theorem quantizer_range_and_lookup_safe (b : ℚ) (n : ℕ) (self : AsciiImage)
    (img : DecodedImage) (charset : List Char) (hn : 1 ≤ n)
    (hdim : (img.width, img.height) = self.dimensions) (hcs : charset ≠ []) :
    (∃ i, brightness_to_index b n = some i ∧ i ≤ n - 1) ∧
    (copy_from self img charset).isSome := by
  constructor
  · refine ⟨_, bti_eq_of_one_le b n hn, ?_⟩
    have := bti_lt b n hn _ (bti_eq_of_one_le b n hn)
    omega
  · obtain ⟨g, hg⟩ := copy_from_total self img charset hdim hcs
    rw [hg]
    rfl

theorem quantizer_range_lookup_instance :
    (copy_from (create_empty (2, 1)) (DecodedImage.mk 2 1 (fun _ _ => whitePixel))
      ['#']).isSome :=
  (quantizer_range_and_lookup_safe (3/2) 5 (create_empty (2, 1))
    (DecodedImage.mk 2 1 (fun _ _ => whitePixel)) ['#']
    (by norm_num) (by decide) (by decide)).2

/-- C2: for every brightness and every `num_chars ≥ 1`, the quantizer computes
`round(brightness * num_chars - 0.5)` with ties away from zero and clamps the
result to `[0, num_chars - 1]` (the spec-worded `quantizer_spec`); for
`num_chars = 5`: brightness 0 gives index 0, brightness 1 gives index 4 and
brightness 1/2 gives index 2. -/
theorem quantizer_formula_and_boundaries (b : ℚ) (n : ℕ) (hn : 1 ≤ n) :
    brightness_to_index b n = some (quantizer_spec b n).toNat ∧
    brightness_to_index 0 5 = some 0 ∧
    brightness_to_index 1 5 = some 4 ∧
    brightness_to_index (1/2) 5 = some 2 := by
  refine ⟨?_, by norm_num [brightness_to_index, rustRound],
    by norm_num [brightness_to_index, rustRound]; all_goals decide,
    by norm_num [brightness_to_index, rustRound]; all_goals decide⟩
  rw [bti_eq_of_one_le b n hn]
  have h1 : (1 : ℤ) ≤ (n : ℤ) := by exact_mod_cast hn
  have hmm : min (max (rustRound (b * n - 1/2)) 0) ((n : ℤ) - 1) = quantizer_spec b n := by
    unfold quantizer_spec
    omega
  rw [hmm]

theorem quantizer_formula_instance :
    brightness_to_index (1/2) 5 = some (quantizer_spec (1/2) 5).toNat :=
  (quantizer_formula_and_boundaries (1/2) 5 (by norm_num)).1

/-- C7: for fixed `num_chars ≥ 1` the quantizer is monotonically non-decreasing
in brightness: `b1 ≤ b2` implies the returned indices satisfy `i1 ≤ i2`. -/
theorem quantizer_monotone (b1 b2 : ℚ) (n : ℕ) (i1 i2 : ℕ) (hn : 1 ≤ n)
    (hb : b1 ≤ b2) (h1 : brightness_to_index b1 n = some i1)
    (h2 : brightness_to_index b2 n = some i2) : i1 ≤ i2 := by
  rw [bti_eq_of_one_le b1 n hn] at h1
  rw [bti_eq_of_one_le b2 n hn] at h2
  have e1 := (Option.some.injEq _ _).mp h1
  have e2 := (Option.some.injEq _ _).mp h2
  subst e1
  subst e2
  have hr : rustRound (b1 * n - 1/2) ≤ rustRound (b2 * n - 1/2) := by
    apply rustRound_mono
    have hmul : b1 * n ≤ b2 * n := by
      apply mul_le_mul_of_nonneg_right hb
      positivity
    linarith
  exact Int.toNat_le_toNat (min_le_min (max_le_max hr le_rfl) le_rfl)

theorem quantizer_monotone_instance : (0 : ℕ) ≤ 4 :=
  quantizer_monotone 0 1 5 0 4 (by norm_num) (by norm_num)
    (by norm_num [brightness_to_index, rustRound])
    (by norm_num [brightness_to_index, rustRound]; all_goals decide)

/-- C10: with an empty charset (`num_chars = 0`) the quantizer panics (its
`clamp` is called with lower bound 0 above upper bound -1; the panic is
modelled as `none`) for every brightness, and therefore `copy_from` on any
image with at least one pixel panics as well — the `num_chars ≥ 1` invariant
is enforced only by this panic, not by an error result. -/
theorem empty_charset_panics (b : ℚ) (self : AsciiImage) (img : DecodedImage)
    (hdim : (img.width, img.height) = self.dimensions)
    (hw : 1 ≤ self.dimensions.1) (hh : 1 ≤ self.dimensions.2) :
    brightness_to_index b 0 = none ∧ copy_from self img ([] : List Char) = none :=
  ⟨bti_zero_none b, copy_from_empty_charset self img hdim hw hh⟩

theorem empty_charset_panics_instance :
    brightness_to_index 0 0 = none ∧
    copy_from (create_empty (1, 1)) (DecodedImage.mk 1 1 (fun _ _ => whitePixel)) [] = none :=
  empty_charset_panics 0 (create_empty (1, 1))
    (DecodedImage.mk 1 1 (fun _ _ => whitePixel)) (by decide) (by decide) (by decide)

/-- C3: for positive source dimensions and positive symbol aspect ratio, the
target raster height is `w * r / (orig_w / orig_h)` converted to an integer by
truncation toward zero (the spec-worded `geometry_height_spec`), with the
requested width defaulting to the source width when absent; in particular
`orig_w=100, orig_h=50, w=50, r=1/2` yields height 12 where rounding would
have yielded 13. -/
theorem geometry_truncation (orig_w orig_h w : ℕ) (r : ℚ)
    (gr : DecodedImage → ℕ → ℕ → DecodedImage) (img : DecodedImage) (cs : List Char)
    (hw : 1 ≤ orig_w) (hh : 1 ≤ orig_h) (hr : 0 < r) :
    (ascii_art_height orig_w orig_h w r : ℤ) = geometry_height_spec orig_w orig_h w r ∧
    generate_image gr img none r cs = generate_image gr img (some img.width) r cs ∧
    ascii_art_height 100 50 50 (1/2) = 12 ∧
    rustRound ((50 : ℚ) * (1/2) / ((100 : ℚ) / 50)) = 13 := by
  refine ⟨?_, rfl, ?_, ?_⟩
  · unfold ascii_art_height geometry_height_spec
    apply Int.toNat_of_nonneg
    have hq : (0 : ℚ) ≤ (w : ℚ) * r / ((orig_w : ℚ) / (orig_h : ℚ)) := by positivity
    unfold truncTowardZero
    rw [if_pos hq]
    rw [Int.le_floor]
    push_cast
    exact hq
  · norm_num [ascii_art_height, truncTowardZero]
    all_goals decide
  · norm_num [rustRound]

theorem geometry_truncation_instance :
    (ascii_art_height 100 50 50 (1/2) : ℤ) = geometry_height_spec 100 50 50 (1/2) :=
  (geometry_truncation 100 50 50 (1/2) sampleResize whiteImage2x2 charsetHash
    (by norm_num) (by norm_num) (by norm_num)).1

/-- C4: for every pixel with channels in `[0, 255]`, the sampled brightness is
`(channel0 / 255) * (channel3 / 255)` and lies in `[0, 1]`; a fully transparent
pixel (`alpha = 0`) at any luminance always quantizes to index 0 for every
`num_chars ≥ 1`. -/
theorem sampler_brightness_range (p : Pixel) (n : ℕ)
    (h0 : p.c0 ≤ 255) (h3 : p.c3 ≤ 255) (hn : 1 ≤ n) :
    pixelBrightness p = ((p.c0 : ℚ) / 255) * ((p.c3 : ℚ) / 255) ∧
    0 ≤ pixelBrightness p ∧ pixelBrightness p ≤ 1 ∧
    (p.c3 = 0 → brightness_to_index (pixelBrightness p) n = some 0) := by
  have hb0 : (p.c0 : ℚ) ≤ 255 := by exact_mod_cast h0
  have hb3 : (p.c3 : ℚ) ≤ 255 := by exact_mod_cast h3
  refine ⟨rfl, ?_, ?_, ?_⟩
  · unfold pixelBrightness
    positivity
  · unfold pixelBrightness
    have h1 : (p.c0 : ℚ) / 255 ≤ 1 := (div_le_one (by norm_num)).mpr hb0
    have h2 : (p.c3 : ℚ) / 255 ≤ 1 := (div_le_one (by norm_num)).mpr hb3
    exact mul_le_one₀ h1 (by positivity) h2
  · intro hz
    have hbz : pixelBrightness p = 0 := by
      unfold pixelBrightness
      rw [hz]
      norm_num
    rw [hbz, bti_eq_of_one_le 0 n hn]
    have h1 : (1 : ℤ) ≤ (n : ℤ) := by exact_mod_cast hn
    have hrr : rustRound ((0 : ℚ) * (n : ℚ) - 1/2) = -1 := by
      norm_num [rustRound]
    rw [hrr]
    congr 1
    omega

theorem sampler_brightness_instance :
    brightness_to_index (pixelBrightness (Pixel.mk 200 0 0 0)) 5 = some 0 :=
  (sampler_brightness_range (Pixel.mk 200 0 0 0) 5 (by norm_num) (by norm_num)
    (by norm_num)).2.2.2 rfl

lemma white_idx1 : brightness_to_index (pixelBrightness whitePixel) 1 = some 0 := by
  norm_num [brightness_to_index, rustRound, pixelBrightness, whitePixel]

lemma white_idx2 : brightness_to_index (pixelBrightness whitePixel) 2 = some 1 := by
  norm_num [brightness_to_index, rustRound, pixelBrightness, whitePixel]

lemma range_one_eq : List.range 1 = [0] := by decide

lemma range_two_eq : List.range 2 = [0, 1] := by decide

lemma copy_from_white1x1 :
    copy_from (create_empty (1, 1)) whiteImage1x1 ['#'] = some ⟨(1, 1), [['#']]⟩ := by
  simp [copy_from, copyCell, whiteImage1x1, white_idx1, create_empty,
    List.foldlM_cons, List.foldlM_nil, range_one_eq]

lemma create_from_white1x1 :
    create_from whiteImage1x1 ['#'] = some ⟨(1, 1), [['#']]⟩ := copy_from_white1x1

lemma copy_from_white2x1 :
    copy_from (create_empty (2, 1)) (sampleResize whiteImage2x2 2 1) charsetHash =
      some ⟨(2, 1), [['#', '#']]⟩ := by
  simp [copy_from, copyCell, sampleResize, whiteImage2x2, charsetHash, white_idx2,
    create_empty, List.foldlM_cons, List.foldlM_nil, range_one_eq, range_two_eq]

lemma aah_2221 : ascii_art_height 2 2 2 (1/2) = 1 := by
  norm_num [ascii_art_height, truncTowardZero]

lemma generate_white :
    generate_image sampleResize whiteImage2x2 (some 2) (1/2) charsetHash = some "##\n" := by
  simp only [generate_image, Option.getD_some]
  have hwh : ascii_art_height whiteImage2x2.width whiteImage2x2.height 2 (1/2) = 1 := aah_2221
  rw [hwh]
  rw [show create_from (sampleResize whiteImage2x2 2 1) charsetHash =
    some ⟨(2, 1), [['#', '#']]⟩ from copy_from_white2x1]
  decide

/-- C5 counterexample: on the 2×2 solid white opaque image with charset `" #"`
and requested width 2, the pipeline output is `"##\n"` — a single row — and
not the claimed `"##\n##\n"`: the Geometry Planner computes height
`trunc(2 * 0.5 / (2/2)) = 1`, not 2. -/
theorem end_to_end_output_differs :
    generate_image sampleResize whiteImage2x2 (some 2) (1/2) charsetHash = some "##\n" ∧
    generate_image sampleResize whiteImage2x2 (some 2) (1/2) charsetHash ≠
      some "##\n##\n" := by
  refine ⟨generate_white, ?_⟩
  rw [generate_white]
  decide

/-- C5 (amended): for the 2×2 solid white opaque source image with charset
`" #"` (2 glyphs), default symbol aspect ratio 1/2 and requested width 2,
every pixel's brightness is 1, the quantized index is
`round(1*2 - 0.5) = round(1.5) = 2` clamped to 1, every cell renders `'#'`,
and the Geometry Planner computes height `trunc(2 * 0.5 / (2/2)) = 1`, so the
grid is 2×1 and the serialized output is exactly `"##\n"`. -/
theorem end_to_end_scenario_amended :
    ascii_art_height 2 2 2 (1/2) = 1 ∧
    pixelBrightness whitePixel = 1 ∧
    brightness_to_index (pixelBrightness whitePixel) 2 = some 1 ∧
    generate_image sampleResize whiteImage2x2 (some 2) (1/2) charsetHash = some "##\n" :=
  ⟨aah_2221, by norm_num [pixelBrightness, whitePixel], white_idx2, generate_white⟩

/-- C6: serializing a grid produces exactly the spec-worded text — each row's
characters concatenated with no separator, each row terminated by a newline,
nothing else (`serialize_spec`), so the text has exactly `height` newline
terminated lines; the 3×2 all-`'X'` grid serializes to `"XXX\nXXX\n"`. -/
theorem display_serialization (img : AsciiImage)
    (hlen : img.data.length = img.dimensions.2)
    (hnl : ∀ row ∈ img.data, newlineChar ∉ row) :
    img.render = serialize_spec img ∧
    img.render.data.count newlineChar = img.dimensions.2 ∧
    (AsciiImage.mk (3, 2) [['X', 'X', 'X'], ['X', 'X', 'X']]).render = "XXX\nXXX\n" := by
  refine ⟨?_, ?_, by decide⟩
  · apply String.ext
    rw [render_data, serialize_spec_data]
  · rw [render_data, count_join_rows img.data hnl, hlen]

theorem display_serialization_instance :
    (AsciiImage.mk (3, 2) [['X', 'X', 'X'], ['X', 'X', 'X']]).render = "XXX\nXXX\n" :=
  (display_serialization (AsciiImage.mk (3, 2) [['X', 'X', 'X'], ['X', 'X', 'X']])
    (by decide) (by decide)).2.2

/-- C8: grids made by `create_empty` have exactly `dimensions.2` rows each of
length `dimensions.1`; `copy_from` (which only overwrites cells in place)
preserves dimensions and that shape; and any grid produced by `create_from`
satisfies the shape invariant with the image's dimensions. -/
theorem grid_shape_invariant (d : ℕ × ℕ) (img : DecodedImage) (charset : List Char)
    (self g g2 : AsciiImage)
    (hcopy : copy_from self img charset = some g)
    (hlen : self.data.length = self.dimensions.2)
    (hrow : ∀ row ∈ self.data, row.length = self.dimensions.1)
    (hfrom : create_from img charset = some g2) :
    ((create_empty d).dimensions = d ∧ (create_empty d).data.length = d.2 ∧
      ∀ row ∈ (create_empty d).data, row.length = d.1) ∧
    (g.dimensions = self.dimensions ∧ g.data.length = self.dimensions.2 ∧
      ∀ row ∈ g.data, row.length = self.dimensions.1) ∧
    (g2.dimensions = (img.width, img.height) ∧ g2.data.length = img.height ∧
      ∀ row ∈ g2.data, row.length = img.width) :=
  ⟨create_empty_shape d, copy_from_shape self g img charset hlen hrow hcopy,
    create_from_shape img charset g2 hfrom⟩

theorem grid_shape_instance :
    (AsciiImage.mk (1, 1) [['#']]).dimensions = ((1, 1) : ℕ × ℕ) ∧
    (AsciiImage.mk (1, 1) [['#']]).data.length = 1 :=
  ⟨(grid_shape_invariant (1, 1) whiteImage1x1 ['#'] (create_empty (1, 1))
      (AsciiImage.mk (1, 1) [['#']]) (AsciiImage.mk (1, 1) [['#']])
      copy_from_white1x1 rfl (by decide) create_from_white1x1).2.1.1,
    (grid_shape_invariant (1, 1) whiteImage1x1 ['#'] (create_empty (1, 1))
      (AsciiImage.mk (1, 1) [['#']]) (AsciiImage.mk (1, 1) [['#']])
      copy_from_white1x1 rfl (by decide) create_from_white1x1).2.1.2.1⟩

/-- C9 counterexample: the line printed for `FailedToDecodeInput` is the same
for two different input locators, so it cannot name the offending locator,
contrary to the claim that every failure line names the locator. -/
theorem decode_error_message_constant :
    error_message .FailedToDecodeInput "a.png" none =
      error_message .FailedToDecodeInput "b.png" none ∧
    ("a.png" : String) ≠ "b.png" :=
  ⟨rfl, by decide⟩

/-- C9 (amended): every failing invocation prints exactly one line (no newline
inside the message when the locators contain none) naming the failure kind;
the line also names the input locator for `InvalidInputPath`,
`FailedToDownload` and `DownloadInvalid`, and the output path for
`FailedToWriteToOutput` (as a suffix of the message); `FailedToDecodeInput`
instead prints the fixed line `"Failed to decode input image!"` that does not
include the locator. -/
theorem error_message_amended (input out : String)
    (hin : newlineChar ∉ input.data) (hout : newlineChar ∉ out.data) :
    error_message .InvalidInputPath input (some out) =
      some ("Failed to open: " ++ input) ∧
    input.data <:+ ("Failed to open: " ++ input).data ∧
    error_message .FailedToDownload input (some out) =
      some ("Failed to download: " ++ input) ∧
    input.data <:+ ("Failed to download: " ++ input).data ∧
    error_message .DownloadInvalid input (some out) =
      some ("Invalid source: " ++ input) ∧
    input.data <:+ ("Invalid source: " ++ input).data ∧
    error_message .FailedToWriteToOutput input (some out) =
      some ("Failed to save output to: " ++ out) ∧
    out.data <:+ ("Failed to save output to: " ++ out).data ∧
    error_message .FailedToDecodeInput input (some out) =
      some "Failed to decode input image!" ∧
    newlineChar ∉ ("Failed to open: " ++ input).data ∧
    newlineChar ∉ ("Failed to download: " ++ input).data ∧
    newlineChar ∉ ("Invalid source: " ++ input).data ∧
    newlineChar ∉ ("Failed to save output to: " ++ out).data ∧
    newlineChar ∉ ("Failed to decode input image!" : String).data := by
  refine ⟨rfl, ⟨_, (string_data_append _ _).symm⟩,
    rfl, ⟨_, (string_data_append _ _).symm⟩,
    rfl, ⟨_, (string_data_append _ _).symm⟩,
    rfl, ⟨_, (string_data_append _ _).symm⟩,
    rfl, ?_, ?_, ?_, ?_, by decide⟩
  all_goals
    rw [string_data_append]
    simp only [List.mem_append]
    push_neg
    refine ⟨by decide, by assumption⟩

theorem error_message_amended_instance :
    error_message .InvalidInputPath "a.png" (some "b.txt") =
      some ("Failed to open: " ++ "a.png") :=
  (error_message_amended "a.png" "b.txt" (by decide) (by decide)).1
